import Mathlib

/-!
Verification of the Pareto-frontier credit-assignment engine and the MCTS
search utilities of the reasoning-optimizer repository.

The Lean definitions below are a shallow embedding of
`src/docetl/mcts/ParetoFrontier.py` and `src/docetl/mcts/mcts_utils.py`.
Python floats are modelled as rationals (`ℚ`) for the frontier engine and as
reals (`ℝ`) where the code takes square roots and logarithms; Python dicts
(keyed by object identity, which coincides with the node `id` field for
distinct ids) are modelled as insertion-ordered association lists; exceptions
are modelled with `Except`.
-/

namespace ReasoningOptimizer

/-- Association-list lookup, modelling Python `dict.get` / `in`. -/
def lookupA {κ ν : Type} [DecidableEq κ] : List (κ × ν) → κ → Option ν
  | [], _ => none
  | (k, v) :: rest, key => if k = key then some v else lookupA rest key

/-- Association-list update, modelling Python `dict[key] = val`: an existing
key is overwritten in place, a new key is appended (insertion order). -/
def setA {κ ν : Type} [DecidableEq κ] : List (κ × ν) → κ → ν → List (κ × ν)
  | [], key, val => [(key, val)]
  | (k, v) :: rest, key, val =>
    if k = key then (key, val) :: rest else (k, v) :: setA rest key val

theorem lookupA_setA_self {κ ν : Type} [DecidableEq κ]
    (l : List (κ × ν)) (k : κ) (v : ν) : lookupA (setA l k v) k = some v := by
  induction l with
  | nil => simp [setA, lookupA]
  | cons h t ih =>
    obtain ⟨k', v'⟩ := h
    by_cases hk : k' = k
    · simp [setA, hk, lookupA]
    · simp [setA, hk, lookupA, ih]

theorem lookupA_setA_ne {κ ν : Type} [DecidableEq κ]
    (l : List (κ × ν)) (k k' : κ) (v : ν) (h : k' ≠ k) :
    lookupA (setA l k v) k' = lookupA l k' := by
  induction l with
  | nil => simp [setA, lookupA, Ne.symm h]
  | cons hd t ih =>
    obtain ⟨k₀, v₀⟩ := hd
    by_cases hk : k₀ = k
    · subst hk
      simp [setA, lookupA, h, Ne.symm h]
    · simp only [setA, if_neg hk, lookupA]
      by_cases hk' : k₀ = k'
      · simp [hk']
      · simp [hk', ih]

theorem lookupA_setA_isSome {κ ν : Type} [DecidableEq κ]
    (l : List (κ × ν)) (k k' : κ) (v : ν) (hk : lookupA l k ≠ none) :
    (lookupA (setA l k v) k').isSome = (lookupA l k').isSome := by
  by_cases h : k' = k
  · subst h
    rw [lookupA_setA_self]
    cases hlk : lookupA l k' with
    | none => exact absurd hlk hk
    | some w => simp
  · rw [lookupA_setA_ne l k k' v h]

/-- A recorded accuracy: either a finite score or the `float("-inf")`
sentinel stored for failed plans. -/
inductive AccVal : Type where
  | negInf : AccVal
  | fin : ℚ → AccVal
deriving DecidableEq, Repr

/-- Finite projection of a recorded accuracy.  The `negInf` branch is only
ever stored for sentinel-cost plans, which never enter the plan list, so the
`0` default is never read on states reachable through `addPlanF1`. -/
def AccVal.toQ : AccVal → ℚ
  | negInf => 0
  | fin q => q

/-- A search-tree node as seen by the frontier engine: a stable id, a real
cost (`-1` is the failure sentinel) and the optional back-reference to the
rewrite action that produced it (`latest_action`). -/
structure Node : Type where
  id : Nat
  cost : ℚ
  latest_action : Option String
deriving DecidableEq, Repr

/-- The mutable state of a `ParetoFrontier` instance: the authoritative plan
list, the accuracy/cost maps, the current frontier (nodes and `[acc, cost]`
pairs), the per-node signed distances and the shared action-reward sink. -/
structure PF : Type where
  plans : List Node
  plans_accuracy : List (Nat × AccVal)
  plans_cost : List (Nat × ℚ)
  frontier_plans : List Node
  frontier_data : List (ℚ × ℚ)
  node_distances : List (Nat × ℚ)
  action_rewards : List (String × ℚ)
deriving DecidableEq, Repr

/-- The empty engine state produced by `__init__`. -/
def pfEmpty : PF := ⟨[], [], [], [], [], [], []⟩

/-- Accuracy of a node read from `plans_accuracy`, with the `0.0` default the
code uses in the frontier scan (`self.plans_accuracy.get(node, 0.0)`).  The
other reads of the map (direct indexing, and the `get(node, float("-inf"))`
of the archive reconstruction) coincide with this on every state in which the
plans carry finite recorded accuracies, which `add_plan_f1` guarantees. -/
def qOf (s : PF) (n : Node) : ℚ :=
  ((lookupA s.plans_accuracy n.id).getD (AccVal.fin 0)).toQ

/-- Cost of a node read from `plans_cost` (`self.plans_cost[node]`).  The
map always stores `node.cost` at insertion, so the node's own cost is the
faithful value for the direct dict indexing the code performs. -/
def costOf (s : PF) (n : Node) : ℚ :=
  (lookupA s.plans_cost n.id).getD n.cost

/-- Scan of `project_to_frontier` (lines 232-240): walk the cost-sorted
reference points, keep overwriting the step accuracy while `node_cost >=
fp_cost`, stop at the first more expensive point. -/
def stepScan (c : ℚ) : List (ℚ × ℚ) → ℚ → ℚ
  | [], acc => acc
  | p :: rest, acc => if p.2 ≤ c then stepScan c rest p.1 else acc

/-- Step-function value at cost `c` of a reference frontier given as
`(accuracy, cost)` pairs: sort by cost ascending, then scan; `0.0` if `c` is
below every reference cost. -/
def stepValue (data : List (ℚ × ℚ)) (c : ℚ) : ℚ :=
  stepScan c (List.insertionSort (fun a b => a.2 ≤ b.2) data) 0

/-- Embedding of `project_to_frontier` (lines 214-246): the vertical
(accuracy-axis) distance from the point to the step function of the
reference frontier; an empty reference frontier returns the raw accuracy. -/
def projectToFrontier (node_acc node_cost : ℚ) (frontier_data : List (ℚ × ℚ)) : ℚ :=
  if frontier_data.isEmpty then node_acc
  else |node_acc - stepValue frontier_data node_cost|

/-- Embedding of `_update_action_rewards` (lines 248-262): add `reward` to
the cumulative entry of the node's latest action, only when the node carries
an action (Python truthiness also excludes the empty string), the shared sink
is non-empty and the action key already exists in it. -/
def updateActionRewards (n : Node) (reward : ℚ)
    (ar : List (String × ℚ)) : List (String × ℚ) :=
  match n.latest_action with
  | none => ar
  | some a =>
    if a = "" ∨ ar = [] then ar
    else
      match lookupA ar a with
      | some v => setA ar a (v + reward)
      | none => ar

/-- Frontier scan of `update_pareto_frontier_HV` (lines 300-309): admit a
node iff its accuracy strictly exceeds the running maximum accuracy, which
starts at `float("-inf")` (modelled by `none`). -/
def frontierScan (q : Node → ℚ) : List Node → Option ℚ → List Node
  | [], _ => []
  | n :: rest, m =>
    if (match m with | none => true | some v => decide (v < q n)) then
      n :: frontierScan q rest (some (q n))
    else frontierScan q rest m

/-- Python `set(old_frontier_nodes) != set(frontier)` on object-identity
sets, expressed through node ids (ids are unique across distinct nodes). -/
def sameIdSet (a b : List Node) : Bool :=
  a.all (fun n => b.any (fun m => m.id == n.id)) &&
    b.all (fun n => a.any (fun m => m.id == n.id))

/-- The valid plans (cost different from the `-1` sentinel), line 272. -/
def validNodes (s : PF) : List Node :=
  s.plans.filter (fun n => decide (n.cost ≠ -1))

/-- The valid plans sorted ascending by stored real cost (line 284, Python's
stable `list.sort`, modelled by stable insertion sort). -/
def validSorted (s : PF) : List Node :=
  List.insertionSort (fun a b => costOf s a ≤ costOf s b) (validNodes s)

/-- Reconstruction of the pre-update frontier data (lines 287-293): the old
frontier members that are still valid, as `(accuracy, cost)` pairs. -/
def archiveFrontierData (s : PF) : List (ℚ × ℚ) :=
  (s.frontier_plans.filter
      (fun n => (validSorted s).any (fun m => m.id == n.id))).map
    (fun n => (qOf s n, costOf s n))

/-- The recomputed frontier: linear scan over the cost-sorted valid plans. -/
def newFrontier (s : PF) : List Node :=
  frontierScan (qOf s) (validSorted s) none

/-- The post-update frontier data (lines 311-315). -/
def newFrontierData (s : PF) : List (ℚ × ℚ) :=
  (newFrontier s).map (fun n => (qOf s n, costOf s n))

/-- Accumulator threaded through the classification loop of
`update_pareto_frontier_HV` (lines 323-372): the `affected_nodes` result
dict, the `node_distances` map and the shared `action_rewards` sink. -/
structure UpdAcc : Type where
  affected : List (Nat × ℚ)
  dists : List (Nat × ℚ)
  rewards : List (String × ℚ)
deriving Repr

/-- One iteration of the classification loop (lines 323-372).  Branch order
follows the `if`/`elif` chain: newly-on (scored against the old frontier,
positive, action credited); newly-off or the just-inserted plan (scored
against the new frontier, negative, action credited only for the inserted
plan); stays-off (delta against the previously recorded distance); stays-on
(no reward entry). -/
def updNodeStep (q c : Node → ℚ) (oldIds newIds : List Nat) (newId : Nat)
    (archive newData : List (ℚ × ℚ)) (a : UpdAcc) (n : Node) : UpdAcc :=
  if newIds.contains n.id && !(oldIds.contains n.id) then
    let d := projectToFrontier (q n) (c n) archive
    ⟨setA a.affected n.id d, setA a.dists n.id d,
     updateActionRewards n d a.rewards⟩
  else if (!(newIds.contains n.id) && oldIds.contains n.id) || n.id == newId then
    let d := projectToFrontier (q n) (c n) newData
    ⟨setA a.affected n.id (-d), setA a.dists n.id (-d),
     if n.id == newId then updateActionRewards n (-d) a.rewards else a.rewards⟩
  else if !(newIds.contains n.id) then
    let d := projectToFrontier (q n) (c n) newData
    ⟨setA a.affected n.id (-d - (lookupA a.dists n.id).getD 0),
     setA a.dists n.id (-d), a.rewards⟩
  else a

/-- Embedding of `update_pareto_frontier_HV` (lines 265-381): recompute the
frontier over the valid plans, classify every valid plan, and return the
`affected_nodes` map (keyed by node id) together with the
frontier-membership-changed flag and the mutated engine state.  The plot
side channel (lines 376-380) is non-contractual and omitted. -/
def updateParetoFrontierHV (s : PF) (new_node : Node) :
    (List (Nat × ℚ) × Bool) × PF :=
  if (validNodes s).isEmpty then
    (([], false), { s with frontier_plans := [], frontier_data := [] })
  else
    let frontier := newFrontier s
    let r := (validSorted s).foldl
      (updNodeStep (qOf s) (costOf s) (s.frontier_plans.map Node.id)
        (frontier.map Node.id) new_node.id (archiveFrontierData s)
        (newFrontierData s))
      ⟨[], s.node_distances, s.action_rewards⟩
    ((r.affected, !sameIdSet s.frontier_plans frontier),
     { s with frontier_plans := frontier, frontier_data := newFrontierData s,
              node_distances := r.dists, action_rewards := r.rewards })

/-- The state after storing a new plan's information (lines 131-137):
append to the plan list, record the real cost and the pre-evaluated
accuracy. -/
def insState (s : PF) (node : Node) (accuracy : ℚ) : PF :=
  { s with plans := s.plans ++ [node],
           plans_cost := setA s.plans_cost node.id node.cost,
           plans_accuracy := setA s.plans_accuracy node.id (AccVal.fin accuracy) }

/-- Embedding of `add_plan_f1` (lines 116-141): reject sentinel-cost plans
recording a `-inf` accuracy; otherwise append the plan, store its cost and
pre-evaluated accuracy, and recompute the frontier. -/
def addPlanF1 (s : PF) (node : Node) (accuracy : ℚ) :
    (List (Nat × ℚ) × Bool) × PF :=
  if node.cost = -1 then
    (([], false),
     { s with plans_accuracy := setA s.plans_accuracy node.id AccVal.negInf })
  else
    updateParetoFrontierHV (insState s node accuracy) node

/-- Score-to-adjustment table of `estimate_accuracy_via_comparisons`
(lines 186-194), with the `0.0` default of `dict.get` for any other score. -/
def scoreToAdjustment (score : Int) : ℚ :=
  if score = -3 then -(15/100)
  else if score = -1 then -(5/100)
  else if score = 0 then 0
  else if score = 1 then 5/100
  else if score = 3 then 15/100
  else 0

/-- The candidate estimates produced by the successful pairwise comparisons
(lines 176-202).  The comparator oracle is a function returning `none` when
the comparison raises; a raised comparison (or a `KeyError` on a missing
accuracy, also caught by the same `except`) is skipped.  Frontier members
always carry finite recorded accuracies, so the `negInf` pattern never
matches on reachable states. -/
def successfulEstimates (s : PF) (cmp : Node → Node → Option Int)
    (new_node : Node) : List ℚ :=
  s.frontier_plans.filterMap (fun ex =>
    match cmp new_node ex, lookupA s.plans_accuracy ex.id with
    | some score, some (AccVal.fin q) => some (q + scoreToAdjustment score)
    | _, _ => none)

/-- Embedding of `estimate_accuracy_via_comparisons` (lines 164-211). -/
def estimateAccuracy (s : PF) (cmp : Node → Node → Option Int)
    (new_node : Node) : ℚ :=
  if s.frontier_plans.isEmpty then 1/2
  else if (successfulEstimates s cmp new_node).isEmpty then 1/2
  else max (1/10) (min (95/100)
    ((successfulEstimates s cmp new_node).sum /
      ((successfulEstimates s cmp new_node).length : ℚ)))

/-- Embedding of `add_plan` (lines 84-114).  After appending the plan,
storing its cost and estimating its accuracy, the code calls
`self.update_pareto_frontier()`, a method the class never defines (only
`update_pareto_frontier_HV` exists), so Python raises `AttributeError` at
that call; the `Except.error` models that exception, and the returned state
is the mutated state at the point of failure. -/
def addPlan (s : PF) (cmp : Node → Node → Option Int) (node : Node) :
    PF × Except String (List (Nat × ℚ)) :=
  if node.cost = -1 then (s, Except.ok [])
  else
    let sa : PF :=
      { s with plans := s.plans ++ [node],
               plans_cost := setA s.plans_cost node.id node.cost }
    let est := if sa.plans_accuracy.isEmpty then (1/2 : ℚ)
               else estimateAccuracy sa cmp node
    let s1 : PF :=
      { sa with plans_accuracy := setA sa.plans_accuracy node.id (AccVal.fin est) }
    (s1, Except.error
      "AttributeError: ParetoFrontier object has no attribute update_pareto_frontier")

/-- A search-tree node as seen by the MCTS utilities: visit count and
accumulated value. -/
structure MCTSNode : Type where
  visits : ℕ
  value : ℝ

/-- Embedding of `calculate_ucb1` (`mcts_utils.py` lines 181-188).  A node
with zero visits scores positive infinity; otherwise the code evaluates
`math.log(parent_visits)`, which raises `ValueError: math domain error` when
`parent_visits = 0`; with `parent_visits ≥ 1` it returns
`value / visits + C * sqrt(log parent_visits / visits)`. -/
noncomputable def calculateUcb1 (node : MCTSNode) (parent_visits : ℕ)
    (exploration_constant : ℝ) : Except String EReal :=
  if node.visits = 0 then Except.ok ⊤
  else if parent_visits = 0 then Except.error "math domain error"
  else Except.ok
    (((node.value / node.visits +
        exploration_constant * Real.sqrt (Real.log parent_visits / node.visits) : ℝ) : EReal))

/-- `calculate_ucb1` with the default exploration constant `math.sqrt(2)`. -/
noncomputable def calculateUcb1Default (node : MCTSNode) (parent_visits : ℕ) :
    Except String EReal :=
  calculateUcb1 node parent_visits (Real.sqrt 2)

/-! ### Frontier-scan lemmas -/

theorem frontierScan_cons (q : Node → ℚ) (n : Node) (rest : List Node) (m : Option ℚ) :
    frontierScan q (n :: rest) m =
      if (match m with | none => true | some v => decide (v < q n)) then
        n :: frontierScan q rest (some (q n))
      else frontierScan q rest m := rfl

theorem frontierScan_subset (q : Node → ℚ) :
    ∀ (l : List Node) (m : Option ℚ) (x : Node), x ∈ frontierScan q l m → x ∈ l := by
  intro l
  induction l with
  | nil => intro m x hx; simp [frontierScan] at hx
  | cons n rest ih =>
    intro m x hx
    rw [frontierScan_cons] at hx
    cases m with
    | none =>
      simp only [if_true] at hx
      rcases List.mem_cons.mp hx with h | h
      · exact List.mem_cons.mpr (Or.inl h)
      · exact List.mem_cons.mpr (Or.inr (ih _ x h))
    | some v =>
      by_cases hv : v < q n
      · rw [if_pos (by simpa using hv)] at hx
        rcases List.mem_cons.mp hx with h | h
        · exact List.mem_cons.mpr (Or.inl h)
        · exact List.mem_cons.mpr (Or.inr (ih _ x h))
      · rw [if_neg (by simpa using hv)] at hx
        exact List.mem_cons.mpr (Or.inr (ih _ x hx))

theorem frontierScan_gt (q : Node → ℚ) :
    ∀ (l : List Node) (v : ℚ) (x : Node), x ∈ frontierScan q l (some v) → v < q x := by
  intro l
  induction l with
  | nil => intro v x hx; simp [frontierScan] at hx
  | cons n rest ih =>
    intro v x hx
    rw [frontierScan_cons] at hx
    by_cases hv : v < q n
    · rw [if_pos (by simpa using hv)] at hx
      rcases List.mem_cons.mp hx with rfl | h
      · exact hv
      · exact lt_trans hv (ih (q n) x h)
    · rw [if_neg (by simpa using hv)] at hx
      exact ih v x hx

theorem frontierScan_dom (q c : Node → ℚ) :
    ∀ (l : List Node), l.Pairwise (fun a b => c a ≤ c b) →
      ∀ (m : Option ℚ) (x : Node), x ∈ frontierScan q l m →
        ∀ p ∈ l, c p < c x → q p < q x := by
  intro l
  induction l with
  | nil => intro _ m x hx; simp [frontierScan] at hx
  | cons n rest ih =>
    intro hs m x hx p hp hc
    rw [List.pairwise_cons] at hs
    obtain ⟨hn, hrest⟩ := hs
    rw [frontierScan_cons] at hx
    cases m with
    | none =>
      simp only [if_true] at hx
      rcases List.mem_cons.mp hx with rfl | hx'
      · rcases List.mem_cons.mp hp with rfl | hp'
        · exact absurd hc (lt_irrefl _)
        · exact absurd hc (not_lt.mpr (hn p hp'))
      · rcases List.mem_cons.mp hp with rfl | hp'
        · exact frontierScan_gt q rest (q p) x hx'
        · exact ih hrest (some (q n)) x hx' p hp' hc
    | some v =>
      by_cases hv : v < q n
      · rw [if_pos (by simpa using hv)] at hx
        rcases List.mem_cons.mp hx with rfl | hx'
        · rcases List.mem_cons.mp hp with rfl | hp'
          · exact absurd hc (lt_irrefl _)
          · exact absurd hc (not_lt.mpr (hn p hp'))
        · rcases List.mem_cons.mp hp with rfl | hp'
          · exact frontierScan_gt q rest (q p) x hx'
          · exact ih hrest (some (q n)) x hx' p hp' hc
      · rw [if_neg (by simpa using hv)] at hx
        rcases List.mem_cons.mp hp with rfl | hp'
        · exact lt_of_le_of_lt (not_lt.mp hv) (frontierScan_gt q rest v x hx)
        · exact ih hrest (some v) x hx p hp' hc

theorem validSorted_sorted (s : PF) :
    (validSorted s).Pairwise (fun a b => costOf s a ≤ costOf s b) := by
  haveI h1 : IsTotal Node (fun a b => costOf s a ≤ costOf s b) :=
    ⟨fun a b => le_total _ _⟩
  haveI h2 : IsTrans Node (fun a b => costOf s a ≤ costOf s b) :=
    ⟨fun a b c hab hbc => le_trans hab hbc⟩
  exact List.sorted_insertionSort _ _

theorem mem_validSorted (s : PF) (p : Node) :
    p ∈ validSorted s ↔ (p ∈ s.plans ∧ p.cost ≠ -1) := by
  unfold validSorted validNodes
  rw [List.mem_insertionSort, List.mem_filter]
  simp

/-! ### Frame facts about `updateParetoFrontierHV` -/

theorem upd_plans (s : PF) (n : Node) :
    ((updateParetoFrontierHV s n).2).plans = s.plans := by
  unfold updateParetoFrontierHV
  by_cases h : (validNodes s).isEmpty <;> simp [h]

theorem upd_plans_accuracy (s : PF) (n : Node) :
    ((updateParetoFrontierHV s n).2).plans_accuracy = s.plans_accuracy := by
  unfold updateParetoFrontierHV
  by_cases h : (validNodes s).isEmpty <;> simp [h]

theorem upd_plans_cost (s : PF) (n : Node) :
    ((updateParetoFrontierHV s n).2).plans_cost = s.plans_cost := by
  unfold updateParetoFrontierHV
  by_cases h : (validNodes s).isEmpty <;> simp [h]

theorem upd_frontier (s : PF) (n : Node) (h : ¬ (validNodes s).isEmpty = true) :
    ((updateParetoFrontierHV s n).2).frontier_plans = newFrontier s := by
  unfold updateParetoFrontierHV
  simp [h]

theorem upd_qOf (s : PF) (n : Node) (p : Node) :
    qOf ((updateParetoFrontierHV s n).2) p = qOf s p := by
  unfold qOf
  rw [upd_plans_accuracy]

theorem upd_costOf (s : PF) (n : Node) (p : Node) :
    costOf ((updateParetoFrontierHV s n).2) p = costOf s p := by
  unfold costOf
  rw [upd_plans_cost]

theorem validNodes_insState_ne (s : PF) (n : Node) (acc : ℚ) (h : n.cost ≠ -1) :
    ¬ (validNodes (insState s n acc)).isEmpty = true := by
  have hn : n ∈ validNodes (insState s n acc) := by
    unfold validNodes insState
    rw [List.mem_filter]
    simp [h]
  intro he
  rw [List.isEmpty_iff] at he
  rw [he] at hn
  exact absurd hn (List.not_mem_nil n)

/-- C1 (amended): after every ingestion of a valid plan, the recomputed
frontier has strictly increasing accuracy along strictly increasing cost,
and no valid plan in the full plan set has cost strictly less than a
frontier member's cost while having accuracy greater or equal — in
particular none with strictly greater accuracy.  (The claim's original
"cost less than or equal" form fails on equal-cost plans, see the
counterexample.) -/
theorem frontier_monotone (s : PF) (n : Node) (acc : ℚ) (h : n.cost ≠ -1) :
    (∀ a ∈ ((addPlanF1 s n acc).2).frontier_plans,
       ∀ b ∈ ((addPlanF1 s n acc).2).frontier_plans,
         costOf (addPlanF1 s n acc).2 a < costOf (addPlanF1 s n acc).2 b →
           qOf (addPlanF1 s n acc).2 a < qOf (addPlanF1 s n acc).2 b) ∧
    (∀ p ∈ ((addPlanF1 s n acc).2).plans, p.cost ≠ -1 →
       ∀ m ∈ ((addPlanF1 s n acc).2).frontier_plans,
         costOf (addPlanF1 s n acc).2 p < costOf (addPlanF1 s n acc).2 m →
           qOf (addPlanF1 s n acc).2 p < qOf (addPlanF1 s n acc).2 m) := by
  have hne : ¬ (validNodes (insState s n acc)).isEmpty = true :=
    validNodes_insState_ne s n acc h
  have hadd : addPlanF1 s n acc = updateParetoFrontierHV (insState s n acc) n := by
    unfold addPlanF1
    rw [if_neg h]
  set s1 := insState s n acc with hs1
  have hfr : ((addPlanF1 s n acc).2).frontier_plans = newFrontier s1 := by
    rw [hadd]; exact upd_frontier s1 n hne
  have hpl : ((addPlanF1 s n acc).2).plans = s1.plans := by
    rw [hadd]; exact upd_plans s1 n
  have hq : ∀ p, qOf (addPlanF1 s n acc).2 p = qOf s1 p := by
    intro p; rw [hadd]; exact upd_qOf s1 n p
  have hc : ∀ p, costOf (addPlanF1 s n acc).2 p = costOf s1 p := by
    intro p; rw [hadd]; exact upd_costOf s1 n p
  have main : ∀ p ∈ s1.plans, p.cost ≠ -1 →
      ∀ m ∈ newFrontier s1, costOf s1 p < costOf s1 m → qOf s1 p < qOf s1 m := by
    intro p hp hpv m hm hcm
    have hps : p ∈ validSorted s1 := (mem_validSorted s1 p).mpr ⟨hp, hpv⟩
    exact frontierScan_dom (qOf s1) (costOf s1) (validSorted s1)
      (validSorted_sorted s1) none m hm p hps hcm
  constructor
  · intro a ha b hb hab
    rw [hfr] at ha hb
    have has : a ∈ validSorted s1 :=
      frontierScan_subset (qOf s1) (validSorted s1) none a ha
    have ha' := (mem_validSorted s1 a).mp has
    rw [hq, hq, hc, hc] at *
    exact main a ha'.1 ha'.2 b hb hab
  · intro p hp hpv m hm hcm
    rw [hpl] at hp
    rw [hfr] at hm
    rw [hq, hq, hc, hc] at *
    exact main p hp hpv m hm hcm

/-- Witness for C1's amended theorem at a concrete valid plan. -/
theorem frontier_monotone_witness :
    ((⟨0, 10, none⟩ : Node).cost ≠ -1) ∧
    ((∀ a ∈ ((addPlanF1 pfEmpty ⟨0, 10, none⟩ 1).2).frontier_plans,
       ∀ b ∈ ((addPlanF1 pfEmpty ⟨0, 10, none⟩ 1).2).frontier_plans,
         costOf (addPlanF1 pfEmpty ⟨0, 10, none⟩ 1).2 a <
             costOf (addPlanF1 pfEmpty ⟨0, 10, none⟩ 1).2 b →
           qOf (addPlanF1 pfEmpty ⟨0, 10, none⟩ 1).2 a <
             qOf (addPlanF1 pfEmpty ⟨0, 10, none⟩ 1).2 b) ∧
    (∀ p ∈ ((addPlanF1 pfEmpty ⟨0, 10, none⟩ 1).2).plans, p.cost ≠ -1 →
       ∀ m ∈ ((addPlanF1 pfEmpty ⟨0, 10, none⟩ 1).2).frontier_plans,
         costOf (addPlanF1 pfEmpty ⟨0, 10, none⟩ 1).2 p <
             costOf (addPlanF1 pfEmpty ⟨0, 10, none⟩ 1).2 m →
           qOf (addPlanF1 pfEmpty ⟨0, 10, none⟩ 1).2 p <
             qOf (addPlanF1 pfEmpty ⟨0, 10, none⟩ 1).2 m)) :=
  ⟨by norm_num, frontier_monotone pfEmpty ⟨0, 10, none⟩ 1 (by norm_num)⟩

/-- Counterexample to C1 as frozen: ingest plan id 0 (cost 10, accuracy 1/2)
and then plan id 1 (cost 10, accuracy 9/10).  Both end on the frontier, and
plan 1 is a valid plan with cost less than or equal to frontier member
plan 0's cost and accuracy strictly greater — violating the claimed
"no plan in the full plan set has cost ≤ some frontier member's cost and
accuracy > that member's accuracy" invariant after an ingestion. -/
theorem frontier_domination_cex :
    ((⟨0, 10, none⟩ : Node) ∈
        ((addPlanF1 ((addPlanF1 pfEmpty ⟨0, 10, none⟩ (1/2)).2)
            ⟨1, 10, none⟩ (9/10)).2).frontier_plans) ∧
    ((⟨1, 10, none⟩ : Node) ∈
        ((addPlanF1 ((addPlanF1 pfEmpty ⟨0, 10, none⟩ (1/2)).2)
            ⟨1, 10, none⟩ (9/10)).2).plans) ∧
    ((⟨1, 10, none⟩ : Node).cost ≠ -1) ∧
    (costOf ((addPlanF1 ((addPlanF1 pfEmpty ⟨0, 10, none⟩ (1/2)).2)
          ⟨1, 10, none⟩ (9/10)).2) ⟨1, 10, none⟩ ≤
      costOf ((addPlanF1 ((addPlanF1 pfEmpty ⟨0, 10, none⟩ (1/2)).2)
          ⟨1, 10, none⟩ (9/10)).2) ⟨0, 10, none⟩) ∧
    (qOf ((addPlanF1 ((addPlanF1 pfEmpty ⟨0, 10, none⟩ (1/2)).2)
          ⟨1, 10, none⟩ (9/10)).2) ⟨0, 10, none⟩ <
      qOf ((addPlanF1 ((addPlanF1 pfEmpty ⟨0, 10, none⟩ (1/2)).2)
          ⟨1, 10, none⟩ (9/10)).2) ⟨1, 10, none⟩) := by
  norm_num [pfEmpty, addPlanF1, insState, updateParetoFrontierHV, validNodes,
    validSorted, newFrontier, newFrontierData, archiveFrontierData, frontierScan,
    costOf, qOf, lookupA, setA, AccVal.toQ, sameIdSet, updNodeStep,
    projectToFrontier, stepValue, stepScan, updateActionRewards]

/-! ### Classification-loop lemmas -/

theorem projectToFrontier_nonneg (a c : ℚ) (data : List (ℚ × ℚ)) (h : 0 ≤ a) :
    0 ≤ projectToFrontier a c data := by
  unfold projectToFrontier
  by_cases hd : data.isEmpty <;> simp [hd, h, abs_nonneg]

theorem updStep_case1 (q c : Node → ℚ) (oldIds newIds : List Nat) (newId : Nat)
    (archive newData : List (ℚ × ℚ)) (a : UpdAcc) (n : Node)
    (h1 : (newIds.contains n.id && !(oldIds.contains n.id)) = true) :
    updNodeStep q c oldIds newIds newId archive newData a n =
      ⟨setA a.affected n.id (projectToFrontier (q n) (c n) archive),
       setA a.dists n.id (projectToFrontier (q n) (c n) archive),
       updateActionRewards n (projectToFrontier (q n) (c n) archive) a.rewards⟩ := by
  unfold updNodeStep
  rw [if_pos h1]

theorem updStep_case2 (q c : Node → ℚ) (oldIds newIds : List Nat) (newId : Nat)
    (archive newData : List (ℚ × ℚ)) (a : UpdAcc) (n : Node)
    (h1 : (newIds.contains n.id && !(oldIds.contains n.id)) = false)
    (h2 : ((!(newIds.contains n.id) && oldIds.contains n.id) || n.id == newId) = true) :
    updNodeStep q c oldIds newIds newId archive newData a n =
      ⟨setA a.affected n.id (-(projectToFrontier (q n) (c n) newData)),
       setA a.dists n.id (-(projectToFrontier (q n) (c n) newData)),
       if n.id == newId then
         updateActionRewards n (-(projectToFrontier (q n) (c n) newData)) a.rewards
       else a.rewards⟩ := by
  unfold updNodeStep
  rw [if_neg (by rw [h1]; simp), if_pos h2]

theorem updStep_case3 (q c : Node → ℚ) (oldIds newIds : List Nat) (newId : Nat)
    (archive newData : List (ℚ × ℚ)) (a : UpdAcc) (n : Node)
    (h1 : (newIds.contains n.id && !(oldIds.contains n.id)) = false)
    (h2 : ((!(newIds.contains n.id) && oldIds.contains n.id) || n.id == newId) = false)
    (h3 : (!(newIds.contains n.id)) = true) :
    updNodeStep q c oldIds newIds newId archive newData a n =
      ⟨setA a.affected n.id
         (-(projectToFrontier (q n) (c n) newData) - (lookupA a.dists n.id).getD 0),
       setA a.dists n.id (-(projectToFrontier (q n) (c n) newData)),
       a.rewards⟩ := by
  unfold updNodeStep
  rw [if_neg (by rw [h1]; simp), if_neg (by rw [h2]; simp), if_pos h3]

theorem updStep_case4 (q c : Node → ℚ) (oldIds newIds : List Nat) (newId : Nat)
    (archive newData : List (ℚ × ℚ)) (a : UpdAcc) (n : Node)
    (h1 : (newIds.contains n.id && !(oldIds.contains n.id)) = false)
    (h2 : ((!(newIds.contains n.id) && oldIds.contains n.id) || n.id == newId) = false)
    (h3 : (!(newIds.contains n.id)) = false) :
    updNodeStep q c oldIds newIds newId archive newData a n = a := by
  unfold updNodeStep
  rw [if_neg (by rw [h1]; simp), if_neg (by rw [h2]; simp), if_neg (by rw [h3]; simp)]

theorem updStep_preserve (q c : Node → ℚ) (oldIds newIds : List Nat) (newId : Nat)
    (archive newData : List (ℚ × ℚ)) (a : UpdAcc) (n : Node) (k : Nat)
    (hk : n.id ≠ k) :
    lookupA (updNodeStep q c oldIds newIds newId archive newData a n).affected k
        = lookupA a.affected k ∧
      lookupA (updNodeStep q c oldIds newIds newId archive newData a n).dists k
        = lookupA a.dists k := by
  have hk' : k ≠ n.id := Ne.symm hk
  unfold updNodeStep
  split_ifs <;>
    simp [lookupA_setA_ne _ _ _ _ hk']

theorem updFold_preserve (q c : Node → ℚ) (oldIds newIds : List Nat) (newId : Nat)
    (archive newData : List (ℚ × ℚ)) :
    ∀ (l : List Node) (a : UpdAcc) (k : Nat), (∀ m ∈ l, m.id ≠ k) →
      lookupA ((l.foldl (updNodeStep q c oldIds newIds newId archive newData) a)).affected k
          = lookupA a.affected k ∧
        lookupA ((l.foldl (updNodeStep q c oldIds newIds newId archive newData) a)).dists k
          = lookupA a.dists k := by
  intro l
  induction l with
  | nil => intro a k _; exact ⟨rfl, rfl⟩
  | cons n rest ih =>
    intro a k h
    have h1 := updStep_preserve q c oldIds newIds newId archive newData a n k
      (h n (List.mem_cons_self n rest))
    have h2 := ih (updNodeStep q c oldIds newIds newId archive newData a n) k
      (fun m hm => h m (List.mem_cons.mpr (Or.inr hm)))
    rw [List.foldl_cons]
    exact ⟨h2.1.trans h1.1, h2.2.trans h1.2⟩

theorem nodup_split_ids {l l₁ l₂ : List Node} {p : Node}
    (hl : l = l₁ ++ p :: l₂) (hnd : (l.map Node.id).Nodup) :
    (∀ m ∈ l₁, m.id ≠ p.id) ∧ (∀ m ∈ l₂, m.id ≠ p.id) := by
  subst hl
  rw [List.map_append, List.map_cons, List.nodup_append] at hnd
  obtain ⟨_, hnd2, hdisj⟩ := hnd
  rw [List.nodup_cons] at hnd2
  constructor
  · intro m hm he
    exact hdisj (List.mem_map.mpr ⟨m, hm, he⟩) (List.mem_cons_self _ _)
  · intro m hm he
    exact hnd2.1 (List.mem_map.mpr ⟨m, hm, he⟩)

theorem updFold_lookup (q c : Node → ℚ) (oldIds newIds : List Nat) (newId : Nat)
    (archive newData : List (ℚ × ℚ)) (l : List Node)
    (hnd : (l.map Node.id).Nodup) (p : Node) (hp : p ∈ l) (a : UpdAcc) :
    ((newIds.contains p.id && !(oldIds.contains p.id)) = true →
       lookupA ((l.foldl (updNodeStep q c oldIds newIds newId archive newData) a)).affected p.id
           = some (projectToFrontier (q p) (c p) archive) ∧
         lookupA ((l.foldl (updNodeStep q c oldIds newIds newId archive newData) a)).dists p.id
           = some (projectToFrontier (q p) (c p) archive)) ∧
    ((newIds.contains p.id && !(oldIds.contains p.id)) = false →
     ((!(newIds.contains p.id) && oldIds.contains p.id) || p.id == newId) = true →
       lookupA ((l.foldl (updNodeStep q c oldIds newIds newId archive newData) a)).affected p.id
           = some (-(projectToFrontier (q p) (c p) newData)) ∧
         lookupA ((l.foldl (updNodeStep q c oldIds newIds newId archive newData) a)).dists p.id
           = some (-(projectToFrontier (q p) (c p) newData))) ∧
    ((newIds.contains p.id && !(oldIds.contains p.id)) = false →
     ((!(newIds.contains p.id) && oldIds.contains p.id) || p.id == newId) = false →
     (!(newIds.contains p.id)) = true →
       lookupA ((l.foldl (updNodeStep q c oldIds newIds newId archive newData) a)).affected p.id
           = some (-(projectToFrontier (q p) (c p) newData) - (lookupA a.dists p.id).getD 0) ∧
         lookupA ((l.foldl (updNodeStep q c oldIds newIds newId archive newData) a)).dists p.id
           = some (-(projectToFrontier (q p) (c p) newData))) ∧
    ((newIds.contains p.id && !(oldIds.contains p.id)) = false →
     ((!(newIds.contains p.id) && oldIds.contains p.id) || p.id == newId) = false →
     (!(newIds.contains p.id)) = false →
       lookupA ((l.foldl (updNodeStep q c oldIds newIds newId archive newData) a)).affected p.id
           = lookupA a.affected p.id ∧
         lookupA ((l.foldl (updNodeStep q c oldIds newIds newId archive newData) a)).dists p.id
           = lookupA a.dists p.id) := by
  obtain ⟨l₁, l₂, hl⟩ := List.append_of_mem hp
  obtain ⟨hl₁, hl₂⟩ := nodup_split_ids hl hnd
  subst hl
  rw [List.foldl_append]
  rw [List.foldl_cons]
  have ha₁ := updFold_preserve q c oldIds newIds newId archive newData l₁ a p.id hl₁
  set a₁ := l₁.foldl (updNodeStep q c oldIds newIds newId archive newData) a with ha₁def
  have hfin := fun b => updFold_preserve q c oldIds newIds newId archive newData l₂ b p.id hl₂
  refine ⟨?_, ?_, ?_, ?_⟩
  · intro h1
    rw [updStep_case1 q c oldIds newIds newId archive newData a₁ p h1] at *
    refine ⟨((hfin _).1).trans ?_, ((hfin _).2).trans ?_⟩ <;>
      exact lookupA_setA_self _ _ _
  · intro h1 h2
    rw [updStep_case2 q c oldIds newIds newId archive newData a₁ p h1 h2] at *
    refine ⟨((hfin _).1).trans ?_, ((hfin _).2).trans ?_⟩ <;>
      exact lookupA_setA_self _ _ _
  · intro h1 h2 h3
    rw [updStep_case3 q c oldIds newIds newId archive newData a₁ p h1 h2 h3] at *
    refine ⟨((hfin _).1).trans ?_, ((hfin _).2).trans ?_⟩
    · rw [lookupA_setA_self, ha₁.2]
    · exact lookupA_setA_self _ _ _
  · intro h1 h2 h3
    rw [updStep_case4 q c oldIds newIds newId archive newData a₁ p h1 h2 h3] at *
    exact ⟨((hfin _).1).trans ha₁.1, ((hfin _).2).trans ha₁.2⟩

/-! ### Transition classes and reward characterization -/

/-- Vertical distance of a plan to the pre-update frontier step function. -/
def dOld (s : PF) (p : Node) : ℚ :=
  projectToFrontier (qOf s p) (costOf s p) (archiveFrontierData s)

/-- Vertical distance of a plan to the post-update frontier step function. -/
def dNew (s : PF) (p : Node) : ℚ :=
  projectToFrontier (qOf s p) (costOf s p) (newFrontierData s)

/-- Transition class: newly admitted to the frontier. -/
def newlyOn (s : PF) (p : Node) : Prop :=
  p.id ∈ (newFrontier s).map Node.id ∧ p.id ∉ s.frontier_plans.map Node.id

/-- Transition class: newly off the frontier, or the just-inserted plan when
it does not join the frontier. -/
def offClass (s : PF) (n p : Node) : Prop :=
  (p.id ∉ (newFrontier s).map Node.id ∧ p.id ∈ s.frontier_plans.map Node.id) ∨
    (p.id = n.id ∧ p.id ∉ (newFrontier s).map Node.id)

/-- Transition class: stays on the frontier (and is not the inserted plan). -/
def staysOn (s : PF) (n p : Node) : Prop :=
  p.id ∈ (newFrontier s).map Node.id ∧ p.id ∈ s.frontier_plans.map Node.id ∧
    p.id ≠ n.id

/-- Transition class: stays off the frontier (and is not the inserted plan). -/
def staysOff (s : PF) (n p : Node) : Prop :=
  p.id ∉ (newFrontier s).map Node.id ∧ p.id ∉ s.frontier_plans.map Node.id ∧
    p.id ≠ n.id

instance (s : PF) (p : Node) : Decidable (newlyOn s p) := by
  unfold newlyOn; infer_instance

instance (s : PF) (n p : Node) : Decidable (offClass s n p) := by
  unfold offClass; infer_instance

instance (s : PF) (n p : Node) : Decidable (staysOn s n p) := by
  unfold staysOn; infer_instance

instance (s : PF) (n p : Node) : Decidable (staysOff s n p) := by
  unfold staysOff; infer_instance

theorem contains_true_of_mem {ids : List Nat} {k : Nat} (h : k ∈ ids) :
    ids.contains k = true := List.elem_iff.mpr h

theorem contains_false_of_not_mem {ids : List Nat} {k : Nat} (h : k ∉ ids) :
    ids.contains k = false :=
  Bool.eq_false_iff.mpr (fun hc => h (List.elem_iff.mp hc))

theorem upd_result (s : PF) (n : Node) (h : ¬ (validNodes s).isEmpty = true) :
    updateParetoFrontierHV s n =
      ((((validSorted s).foldl
            (updNodeStep (qOf s) (costOf s) (s.frontier_plans.map Node.id)
              ((newFrontier s).map Node.id) n.id (archiveFrontierData s)
              (newFrontierData s))
            ⟨[], s.node_distances, s.action_rewards⟩).affected,
        !sameIdSet s.frontier_plans (newFrontier s)),
       { s with frontier_plans := newFrontier s,
                frontier_data := newFrontierData s,
                node_distances := ((validSorted s).foldl
                  (updNodeStep (qOf s) (costOf s) (s.frontier_plans.map Node.id)
                    ((newFrontier s).map Node.id) n.id (archiveFrontierData s)
                    (newFrontierData s))
                  ⟨[], s.node_distances, s.action_rewards⟩).dists,
                action_rewards := ((validSorted s).foldl
                  (updNodeStep (qOf s) (costOf s) (s.frontier_plans.map Node.id)
                    ((newFrontier s).map Node.id) n.id (archiveFrontierData s)
                    (newFrontierData s))
                  ⟨[], s.node_distances, s.action_rewards⟩).rewards }) := by
  unfold updateParetoFrontierHV
  rw [if_neg h]

theorem validSorted_ids_nodup (s : PF) (h : (s.plans.map Node.id).Nodup) :
    ((validSorted s).map Node.id).Nodup := by
  have h1 := List.filter_sublist (p := fun n => decide (n.cost ≠ -1)) s.plans
  have h2 := List.Sublist.map Node.id h1
  have h3 : ((validNodes s).map Node.id).Nodup := List.Nodup.sublist h2 h
  have h4 : (validSorted s).Perm (validNodes s) := List.perm_insertionSort _ _
  exact ((h4.map Node.id).symm).nodup h3

theorem mem_validNodes (s : PF) (p : Node) (hp : p ∈ s.plans) (hpv : p.cost ≠ -1) :
    p ∈ validNodes s := by
  unfold validNodes
  rw [List.mem_filter]
  simp [hp, hpv]

theorem validNodes_nonempty (s : PF) (p : Node) (hp : p ∈ s.plans)
    (hpv : p.cost ≠ -1) : ¬ (validNodes s).isEmpty = true := by
  intro he
  rw [List.isEmpty_iff] at he
  have hm := mem_validNodes s p hp hpv
  rw [he] at hm
  exact absurd hm (List.not_mem_nil p)

theorem classes_partition (s : PF) (n p : Node)
    (hfr : p.id = n.id → p.id ∉ s.frontier_plans.map Node.id) :
    (newlyOn s p ∨ offClass s n p ∨ staysOn s n p ∨ staysOff s n p) ∧
      ¬(newlyOn s p ∧ offClass s n p) ∧ ¬(newlyOn s p ∧ staysOn s n p) ∧
      ¬(newlyOn s p ∧ staysOff s n p) ∧ ¬(offClass s n p ∧ staysOn s n p) ∧
      ¬(offClass s n p ∧ staysOff s n p) ∧ ¬(staysOn s n p ∧ staysOff s n p) := by
  unfold newlyOn offClass staysOn staysOff
  constructor
  · rcases Classical.em (p.id ∈ (newFrontier s).map Node.id) with h1 | h1 <;>
      rcases Classical.em (p.id ∈ s.frontier_plans.map Node.id) with h2 | h2 <;>
        rcases Classical.em (p.id = n.id) with h3 | h3 <;> tauto
  · tauto

/-- C2: in a single frontier update, every valid plan falls into exactly one
transition class and is rewarded accordingly: a newly-on plan gets the
(nonnegative) vertical distance to the pre-update step function as a positive
reward, a newly-off plan and the just-inserted plan when it does not join the
frontier get minus the distance to the post-update step function, and a plan
that stays on the frontier gets no reward entry. -/
theorem update_reward_classes (s : PF) (n : Node)
    (hnd : (s.plans.map Node.id).Nodup)
    (hfresh : n.id ∉ s.frontier_plans.map Node.id) :
    ∀ p ∈ s.plans, p.cost ≠ -1 →
      ((newlyOn s p ∨ offClass s n p ∨ staysOn s n p ∨ staysOff s n p) ∧
        ¬(newlyOn s p ∧ offClass s n p) ∧ ¬(newlyOn s p ∧ staysOn s n p) ∧
        ¬(newlyOn s p ∧ staysOff s n p) ∧ ¬(offClass s n p ∧ staysOn s n p) ∧
        ¬(offClass s n p ∧ staysOff s n p) ∧ ¬(staysOn s n p ∧ staysOff s n p)) ∧
      (newlyOn s p →
        lookupA (updateParetoFrontierHV s n).1.1 p.id = some (dOld s p) ∧
          (0 ≤ qOf s p → 0 ≤ dOld s p)) ∧
      (offClass s n p →
        lookupA (updateParetoFrontierHV s n).1.1 p.id = some (-(dNew s p)) ∧
          (0 ≤ qOf s p → -(dNew s p) ≤ 0)) ∧
      (staysOn s n p → lookupA (updateParetoFrontierHV s n).1.1 p.id = none) := by
  intro p hp hpv
  have hfr : p.id = n.id → p.id ∉ s.frontier_plans.map Node.id := by
    intro he; rw [he]; exact hfresh
  have hvm : p ∈ validSorted s := (mem_validSorted s p).mpr ⟨hp, hpv⟩
  have hne : ¬ (validNodes s).isEmpty = true := validNodes_nonempty s p hp hpv
  have hnd' : ((validSorted s).map Node.id).Nodup := validSorted_ids_nodup s hnd
  have hFL := updFold_lookup (qOf s) (costOf s) (s.frontier_plans.map Node.id)
    ((newFrontier s).map Node.id) n.id (archiveFrontierData s) (newFrontierData s)
    (validSorted s) hnd' p hvm ⟨[], s.node_distances, s.action_rewards⟩
  have hres : (updateParetoFrontierHV s n).1.1 =
      ((validSorted s).foldl
        (updNodeStep (qOf s) (costOf s) (s.frontier_plans.map Node.id)
          ((newFrontier s).map Node.id) n.id (archiveFrontierData s)
          (newFrontierData s))
        ⟨[], s.node_distances, s.action_rewards⟩).affected := by
    rw [upd_result s n hne]
  refine ⟨classes_partition s n p hfr, ?_, ?_, ?_⟩
  · intro hcl
    obtain ⟨hm1, hm2⟩ := hcl
    have e1 := contains_true_of_mem hm1
    have e2 := contains_false_of_not_mem hm2
    have hb1 : (((newFrontier s).map Node.id).contains p.id &&
        !((s.frontier_plans.map Node.id).contains p.id)) = true := by
      rw [e1, e2]; rfl
    rw [hres]
    exact ⟨(hFL.1 hb1).1, fun hq => projectToFrontier_nonneg _ _ _ hq⟩
  · intro hcl
    have hb1 : (((newFrontier s).map Node.id).contains p.id &&
        !((s.frontier_plans.map Node.id).contains p.id)) = false := by
      rcases hcl with ⟨hm1, _⟩ | ⟨_, hm1⟩ <;>
        rw [contains_false_of_not_mem hm1] <;> rfl
    have hb2 : ((!(((newFrontier s).map Node.id).contains p.id) &&
        ((s.frontier_plans.map Node.id).contains p.id)) || (p.id == n.id)) = true := by
      rcases hcl with ⟨hm1, hm2⟩ | ⟨he, hm1⟩
      · rw [contains_false_of_not_mem hm1, contains_true_of_mem hm2]
        rfl
      · rw [beq_iff_eq.mpr he]
        simp
    rw [hres]
    refine ⟨((hFL.2.1) hb1 hb2).1, fun hq => ?_⟩
    exact neg_nonpos.mpr (projectToFrontier_nonneg _ _ _ hq)
  · intro hcl
    obtain ⟨hm1, hm2, hm3⟩ := hcl
    have e1 := contains_true_of_mem hm1
    have e2 := contains_true_of_mem hm2
    have e3 : (p.id == n.id) = false := beq_eq_false_iff_ne.mpr hm3
    have hb1 : (((newFrontier s).map Node.id).contains p.id &&
        !((s.frontier_plans.map Node.id).contains p.id)) = false := by
      rw [e1, e2]; rfl
    have hb2 : ((!(((newFrontier s).map Node.id).contains p.id) &&
        ((s.frontier_plans.map Node.id).contains p.id)) || (p.id == n.id)) = false := by
      rw [e1, e2, e3]; rfl
    have hb3 : (!(((newFrontier s).map Node.id).contains p.id)) = false := by
      rw [e1]; rfl
    rw [hres]
    exact ((hFL.2.2.2) hb1 hb2 hb3).1

/-- C3: a stays-off plan's emitted credit is the delta between the new
negative distance to the post-update step function and the previously
recorded distance (not the raw distance); its recorded distance is updated to
the new negative distance; and once the recorded distance has stabilized at
that value, the emitted delta is exactly 0. -/
theorem stays_off_delta (s : PF) (n : Node)
    (hnd : (s.plans.map Node.id).Nodup) :
    ∀ p ∈ s.plans, p.cost ≠ -1 → staysOff s n p →
      lookupA (updateParetoFrontierHV s n).1.1 p.id
          = some (-(dNew s p) - (lookupA s.node_distances p.id).getD 0) ∧
        lookupA ((updateParetoFrontierHV s n).2).node_distances p.id
          = some (-(dNew s p)) ∧
        (lookupA s.node_distances p.id = some (-(dNew s p)) →
          lookupA (updateParetoFrontierHV s n).1.1 p.id = some 0) := by
  intro p hp hpv hcl
  obtain ⟨hm1, hm2, hm3⟩ := hcl
  have e1 := contains_false_of_not_mem hm1
  have e2 := contains_false_of_not_mem hm2
  have e3 : (p.id == n.id) = false := beq_eq_false_iff_ne.mpr hm3
  have hvm : p ∈ validSorted s := (mem_validSorted s p).mpr ⟨hp, hpv⟩
  have hne : ¬ (validNodes s).isEmpty = true := validNodes_nonempty s p hp hpv
  have hnd' : ((validSorted s).map Node.id).Nodup := validSorted_ids_nodup s hnd
  have hFL := updFold_lookup (qOf s) (costOf s) (s.frontier_plans.map Node.id)
    ((newFrontier s).map Node.id) n.id (archiveFrontierData s) (newFrontierData s)
    (validSorted s) hnd' p hvm ⟨[], s.node_distances, s.action_rewards⟩
  have hb1 : (((newFrontier s).map Node.id).contains p.id &&
      !((s.frontier_plans.map Node.id).contains p.id)) = false := by
    rw [e1]; rfl
  have hb2 : ((!(((newFrontier s).map Node.id).contains p.id) &&
      ((s.frontier_plans.map Node.id).contains p.id)) || (p.id == n.id)) = false := by
    rw [e1, e2, e3]; rfl
  have hb3 : (!(((newFrontier s).map Node.id).contains p.id)) = true := by
    rw [e1]; rfl
  have hmain := (hFL.2.2.1) hb1 hb2 hb3
  have hres : (updateParetoFrontierHV s n).1.1 =
      ((validSorted s).foldl
        (updNodeStep (qOf s) (costOf s) (s.frontier_plans.map Node.id)
          ((newFrontier s).map Node.id) n.id (archiveFrontierData s)
          (newFrontierData s))
        ⟨[], s.node_distances, s.action_rewards⟩).affected := by
    rw [upd_result s n hne]
  have hresd : ((updateParetoFrontierHV s n).2).node_distances =
      ((validSorted s).foldl
        (updNodeStep (qOf s) (costOf s) (s.frontier_plans.map Node.id)
          ((newFrontier s).map Node.id) n.id (archiveFrontierData s)
          (newFrontierData s))
        ⟨[], s.node_distances, s.action_rewards⟩).dists := by
    rw [upd_result s n hne]
  refine ⟨?_, ?_, ?_⟩
  · rw [hres]; exact hmain.1
  · rw [hresd]; exact hmain.2
  · intro hst
    rw [hres]
    have h0 := hmain.1
    rw [show lookupA (⟨[], s.node_distances, s.action_rewards⟩ : UpdAcc).dists p.id
          = lookupA s.node_distances p.id from rfl, hst] at h0
    simpa [dNew] using h0

/-! ### Concrete states used as witnesses -/

def wNodeA : Node := ⟨0, 10, none⟩

def wNodeB : Node := ⟨1, 10, none⟩

def wNodeC : Node := ⟨2, 20, none⟩

/-- A reachable engine state: plans A (cost 10, acc 2, on frontier),
B (cost 10, acc 1, off frontier with recorded distance -1) and
C (cost 20, acc 3, just inserted). -/
def wState : PF :=
  ⟨[wNodeA, wNodeB, wNodeC],
   [(0, AccVal.fin 2), (1, AccVal.fin 1), (2, AccVal.fin 3)],
   [(0, 10), (1, 10), (2, 20)],
   [wNodeA], [(2, 10)], [(1, -1)], []⟩

/-- Witness for C2 at a concrete newly-on plan. -/
theorem update_reward_classes_witness :
    ((wState.plans.map Node.id).Nodup ∧
      wNodeC.id ∉ wState.frontier_plans.map Node.id ∧
      wNodeC ∈ wState.plans ∧ wNodeC.cost ≠ -1 ∧ newlyOn wState wNodeC) ∧
    (lookupA (updateParetoFrontierHV wState wNodeC).1.1 wNodeC.id
        = some (dOld wState wNodeC) ∧
      (0 ≤ qOf wState wNodeC → 0 ≤ dOld wState wNodeC)) :=
  ⟨⟨by decide, by decide, by decide, by decide, by decide⟩,
   ((update_reward_classes wState wNodeC (by decide) (by decide)) wNodeC
      (by decide) (by decide)).2.1 (by decide)⟩

/-- Witness for C3 at a concrete stays-off plan whose recorded distance has
already stabilized at the new negative distance, so the emitted delta is 0. -/
theorem stays_off_delta_witness :
    ((wState.plans.map Node.id).Nodup ∧ wNodeB ∈ wState.plans ∧
      wNodeB.cost ≠ -1 ∧ staysOff wState wNodeC wNodeB) ∧
    (lookupA (updateParetoFrontierHV wState wNodeC).1.1 wNodeB.id
        = some (-(dNew wState wNodeB) -
            (lookupA wState.node_distances wNodeB.id).getD 0) ∧
      lookupA ((updateParetoFrontierHV wState wNodeC).2).node_distances wNodeB.id
        = some (-(dNew wState wNodeB)) ∧
      (lookupA wState.node_distances wNodeB.id = some (-(dNew wState wNodeB)) →
        lookupA (updateParetoFrontierHV wState wNodeC).1.1 wNodeB.id = some 0)) :=
  ⟨⟨by decide, by decide, by decide, by decide⟩,
   stays_off_delta wState wNodeC (by decide) wNodeB (by decide) (by decide)
     (by decide)⟩

/-- C5: a plan whose cost equals the failure sentinel `-1` is rejected by
`add_plan_f1`: the result map is empty with the frontier-changed flag false,
the plan's accuracy is recorded as negative infinity, and the plan list, cost
map, frontier, node-distance map and action-reward sink are all left
unchanged — so the plan never enters the frontier, never receives a finite
credit entry and never contributes to action-reward accumulation. -/
theorem sentinel_rejection (s : PF) (n : Node) (acc : ℚ) (h : n.cost = -1) :
    (addPlanF1 s n acc).1 = ([], false) ∧
    ((addPlanF1 s n acc).2).plans = s.plans ∧
    ((addPlanF1 s n acc).2).plans_cost = s.plans_cost ∧
    ((addPlanF1 s n acc).2).frontier_plans = s.frontier_plans ∧
    ((addPlanF1 s n acc).2).frontier_data = s.frontier_data ∧
    ((addPlanF1 s n acc).2).node_distances = s.node_distances ∧
    ((addPlanF1 s n acc).2).action_rewards = s.action_rewards ∧
    lookupA ((addPlanF1 s n acc).2).plans_accuracy n.id = some AccVal.negInf ∧
    (n.id ∉ s.frontier_plans.map Node.id →
      n.id ∉ ((addPlanF1 s n acc).2).frontier_plans.map Node.id) ∧
    (lookupA s.node_distances n.id = none →
      lookupA ((addPlanF1 s n acc).2).node_distances n.id = none) := by
  unfold addPlanF1
  rw [if_pos h]
  exact ⟨rfl, rfl, rfl, rfl, rfl, rfl, rfl, lookupA_setA_self _ _ _,
    fun hx => hx, fun hx => hx⟩

/-- Witness for C5 at a concrete sentinel-cost plan. -/
theorem sentinel_rejection_witness :
    ((⟨5, -1, none⟩ : Node).cost = -1) ∧
    ((addPlanF1 pfEmpty ⟨5, -1, none⟩ 0).1 = ([], false) ∧
      ((addPlanF1 pfEmpty ⟨5, -1, none⟩ 0).2).plans = pfEmpty.plans ∧
      ((addPlanF1 pfEmpty ⟨5, -1, none⟩ 0).2).plans_cost = pfEmpty.plans_cost ∧
      ((addPlanF1 pfEmpty ⟨5, -1, none⟩ 0).2).frontier_plans = pfEmpty.frontier_plans ∧
      ((addPlanF1 pfEmpty ⟨5, -1, none⟩ 0).2).frontier_data = pfEmpty.frontier_data ∧
      ((addPlanF1 pfEmpty ⟨5, -1, none⟩ 0).2).node_distances = pfEmpty.node_distances ∧
      ((addPlanF1 pfEmpty ⟨5, -1, none⟩ 0).2).action_rewards = pfEmpty.action_rewards ∧
      lookupA ((addPlanF1 pfEmpty ⟨5, -1, none⟩ 0).2).plans_accuracy
          (⟨5, -1, none⟩ : Node).id = some AccVal.negInf ∧
      ((⟨5, -1, none⟩ : Node).id ∉ pfEmpty.frontier_plans.map Node.id →
        (⟨5, -1, none⟩ : Node).id ∉
          ((addPlanF1 pfEmpty ⟨5, -1, none⟩ 0).2).frontier_plans.map Node.id) ∧
      (lookupA pfEmpty.node_distances (⟨5, -1, none⟩ : Node).id = none →
        lookupA ((addPlanF1 pfEmpty ⟨5, -1, none⟩ 0).2).node_distances
            (⟨5, -1, none⟩ : Node).id = none)) :=
  ⟨by norm_num, sentinel_rejection pfEmpty ⟨5, -1, none⟩ 0 (by norm_num)⟩

/-- C6 is a code bug: `add_plan` stores the plan, estimates its accuracy and
then calls `self.update_pareto_frontier()`, a method the `ParetoFrontier`
class never defines (only `update_pareto_frontier_HV` exists), so Python
raises `AttributeError` for every plan with a valid (non-sentinel) cost
instead of completing — here evaluated at a concrete plan of cost 1.  The
remaining conjuncts confirm the half of the claim that does hold: with no
valid plans, the frontier recomputation yields an empty frontier, an empty
result map and a false frontier-changed flag. -/
theorem add_plan_attribute_error :
    (addPlan pfEmpty (fun _ _ => none) ⟨0, 1, none⟩).2 =
        Except.error
          "AttributeError: ParetoFrontier object has no attribute update_pareto_frontier" ∧
    (updateParetoFrontierHV pfEmpty ⟨0, 1, none⟩).1 = ([], false) ∧
    ((updateParetoFrontierHV pfEmpty ⟨0, 1, none⟩).2).frontier_plans = [] ∧
    ((updateParetoFrontierHV pfEmpty ⟨0, 1, none⟩).2).frontier_data = [] := by
  refine ⟨?_, ?_, ?_, ?_⟩ <;>
    norm_num [addPlan, pfEmpty, updateParetoFrontierHV, validNodes]

/-! ### Action-reward sink lemmas -/

theorem lookupA_ne_nil {κ ν : Type} [DecidableEq κ]
    {ar : List (κ × ν)} {k : κ} {v : ν} (h : lookupA ar k = some v) : ar ≠ [] := by
  intro hn
  rw [hn] at h
  exact Option.noConfusion h

theorem uar_preserve (n : Node) (r : ℚ) (ar : List (String × ℚ)) (act : String)
    (h : ∀ a', n.latest_action = some a' → a' ≠ act) :
    lookupA (updateActionRewards n r ar) act = lookupA ar act := by
  unfold updateActionRewards
  cases hla : n.latest_action with
  | none => rfl
  | some a =>
    dsimp only
    by_cases hcond : a = "" ∨ ar = []
    · rw [if_pos hcond]
    · rw [if_neg hcond]
      cases hlk : lookupA ar a with
      | some v => exact lookupA_setA_ne ar a act (v + r) (Ne.symm (h a hla))
      | none => rfl

theorem uar_isSome (n : Node) (r : ℚ) (ar : List (String × ℚ)) (act : String) :
    (lookupA (updateActionRewards n r ar) act).isSome = (lookupA ar act).isSome := by
  unfold updateActionRewards
  cases n.latest_action with
  | none => rfl
  | some a =>
    dsimp only
    by_cases hcond : a = "" ∨ ar = []
    · rw [if_pos hcond]
    · rw [if_neg hcond]
      cases hlk : lookupA ar a with
      | some v =>
        exact lookupA_setA_isSome ar a act (v + r) (by rw [hlk]; simp)
      | none => rfl

theorem uar_add (n : Node) (r : ℚ) (ar : List (String × ℚ)) (act : String)
    (v : ℚ) (hla : n.latest_action = some act) (hne : act ≠ "")
    (hlk : lookupA ar act = some v) :
    lookupA (updateActionRewards n r ar) act = some (v + r) := by
  unfold updateActionRewards
  rw [hla]
  dsimp only
  rw [if_neg (by push_neg; exact ⟨hne, lookupA_ne_nil hlk⟩), hlk]
  exact lookupA_setA_self ar act (v + r)

theorem updStep_rewards_preserve (q c : Node → ℚ) (oldIds newIds : List Nat)
    (newId : Nat) (archive newData : List (ℚ × ℚ)) (a : UpdAcc) (n : Node)
    (act : String)
    (h : (∀ a', n.latest_action = some a' → a' ≠ act) ∨
      ((newIds.contains n.id && !(oldIds.contains n.id)) = false ∧
        (n.id == newId) = false)) :
    lookupA (updNodeStep q c oldIds newIds newId archive newData a n).rewards act
      = lookupA a.rewards act := by
  by_cases h1 : (newIds.contains n.id && !(oldIds.contains n.id)) = true
  · rw [updStep_case1 q c oldIds newIds newId archive newData a n h1]
    rcases h with hh | ⟨hb, _⟩
    · exact uar_preserve n _ a.rewards act hh
    · rw [h1] at hb
      simp at hb
  · have h1' := Bool.eq_false_iff.mpr h1
    by_cases h2 : ((!(newIds.contains n.id) && oldIds.contains n.id) || (n.id == newId)) = true
    · rw [updStep_case2 q c oldIds newIds newId archive newData a n h1' h2]
      by_cases hbe : (n.id == newId) = true
      · rw [if_pos hbe]
        rcases h with hh | ⟨_, hb⟩
        · exact uar_preserve n _ a.rewards act hh
        · rw [hbe] at hb
          simp at hb
      · rw [if_neg hbe]
    · have h2' := Bool.eq_false_iff.mpr h2
      by_cases h3 : (!(newIds.contains n.id)) = true
      · rw [updStep_case3 q c oldIds newIds newId archive newData a n h1' h2' h3]
      · rw [updStep_case4 q c oldIds newIds newId archive newData a n h1' h2'
          (Bool.eq_false_iff.mpr h3)]

theorem updStep_rewards_isSome (q c : Node → ℚ) (oldIds newIds : List Nat)
    (newId : Nat) (archive newData : List (ℚ × ℚ)) (a : UpdAcc) (n : Node)
    (act : String) :
    (lookupA (updNodeStep q c oldIds newIds newId archive newData a n).rewards act).isSome
      = (lookupA a.rewards act).isSome := by
  by_cases h1 : (newIds.contains n.id && !(oldIds.contains n.id)) = true
  · rw [updStep_case1 q c oldIds newIds newId archive newData a n h1]
    exact uar_isSome n _ a.rewards act
  · have h1' := Bool.eq_false_iff.mpr h1
    by_cases h2 : ((!(newIds.contains n.id) && oldIds.contains n.id) || (n.id == newId)) = true
    · rw [updStep_case2 q c oldIds newIds newId archive newData a n h1' h2]
      by_cases hbe : (n.id == newId) = true
      · rw [if_pos hbe]
        exact uar_isSome n _ a.rewards act
      · rw [if_neg hbe]
    · have h2' := Bool.eq_false_iff.mpr h2
      by_cases h3 : (!(newIds.contains n.id)) = true
      · rw [updStep_case3 q c oldIds newIds newId archive newData a n h1' h2' h3]
      · rw [updStep_case4 q c oldIds newIds newId archive newData a n h1' h2'
          (Bool.eq_false_iff.mpr h3)]

theorem updFold_rewards_preserve (q c : Node → ℚ) (oldIds newIds : List Nat)
    (newId : Nat) (archive newData : List (ℚ × ℚ)) :
    ∀ (l : List Node) (a : UpdAcc) (act : String),
      (∀ m ∈ l, (∀ a', m.latest_action = some a' → a' ≠ act) ∨
        ((newIds.contains m.id && !(oldIds.contains m.id)) = false ∧
          (m.id == newId) = false)) →
      lookupA ((l.foldl (updNodeStep q c oldIds newIds newId archive newData) a)).rewards act
        = lookupA a.rewards act := by
  intro l
  induction l with
  | nil => intro a act _; rfl
  | cons n rest ih =>
    intro a act h
    rw [List.foldl_cons]
    have h1 := updStep_rewards_preserve q c oldIds newIds newId archive newData
      a n act (h n (List.mem_cons_self n rest))
    have h2 := ih (updNodeStep q c oldIds newIds newId archive newData a n) act
      (fun m hm => h m (List.mem_cons.mpr (Or.inr hm)))
    exact h2.trans h1

theorem updFold_rewards_isSome (q c : Node → ℚ) (oldIds newIds : List Nat)
    (newId : Nat) (archive newData : List (ℚ × ℚ)) :
    ∀ (l : List Node) (a : UpdAcc) (act : String),
      (lookupA ((l.foldl (updNodeStep q c oldIds newIds newId archive newData) a)).rewards act).isSome
        = (lookupA a.rewards act).isSome := by
  intro l
  induction l with
  | nil => intro a act; rfl
  | cons n rest ih =>
    intro a act
    rw [List.foldl_cons]
    exact (ih _ act).trans
      (updStep_rewards_isSome q c oldIds newIds newId archive newData a n act)

theorem updFold_rewards_add (q c : Node → ℚ) (oldIds newIds : List Nat)
    (newId : Nat) (archive newData : List (ℚ × ℚ)) (l : List Node)
    (hnd : (l.map Node.id).Nodup) (p : Node) (hp : p ∈ l) (a : UpdAcc)
    (act : String) (v : ℚ) (hla : p.latest_action = some act) (hne : act ≠ "")
    (hlk : lookupA a.rewards act = some v)
    (hothers : ∀ m ∈ l, m.id ≠ p.id →
      (∀ a', m.latest_action = some a' → a' ≠ act) ∨
        ((newIds.contains m.id && !(oldIds.contains m.id)) = false ∧
          (m.id == newId) = false)) :
    ((newIds.contains p.id && !(oldIds.contains p.id)) = true →
      lookupA ((l.foldl (updNodeStep q c oldIds newIds newId archive newData) a)).rewards act
        = some (v + projectToFrontier (q p) (c p) archive)) ∧
    ((newIds.contains p.id && !(oldIds.contains p.id)) = false →
     (p.id == newId) = true →
      lookupA ((l.foldl (updNodeStep q c oldIds newIds newId archive newData) a)).rewards act
        = some (v + -(projectToFrontier (q p) (c p) newData))) := by
  obtain ⟨l₁, l₂, hl⟩ := List.append_of_mem hp
  obtain ⟨hl₁, hl₂⟩ := nodup_split_ids hl hnd
  subst hl
  rw [List.foldl_append, List.foldl_cons]
  have hpre : lookupA (l₁.foldl (updNodeStep q c oldIds newIds newId archive newData) a).rewards act
      = lookupA a.rewards act :=
    updFold_rewards_preserve q c oldIds newIds newId archive newData l₁ a act
      (fun m hm => hothers m (List.mem_append.mpr (Or.inl hm)) (hl₁ m hm))
  set a₁ := l₁.foldl (updNodeStep q c oldIds newIds newId archive newData) a
  have hlk₁ : lookupA a₁.rewards act = some v := hpre.trans hlk
  have hpost : ∀ b : UpdAcc,
      lookupA (l₂.foldl (updNodeStep q c oldIds newIds newId archive newData) b).rewards act
        = lookupA b.rewards act :=
    fun b => updFold_rewards_preserve q c oldIds newIds newId archive newData l₂ b act
      (fun m hm => hothers m (List.mem_append.mpr (Or.inr (List.mem_cons.mpr (Or.inr hm))))
        (hl₂ m hm))
  constructor
  · intro hb1
    rw [hpost _, updStep_case1 q c oldIds newIds newId archive newData a₁ p hb1]
    exact uar_add p _ a₁.rewards act v hla hne hlk₁
  · intro hb1 hbe
    have hb2 : ((!(newIds.contains p.id) && oldIds.contains p.id) || (p.id == newId)) = true := by
      rw [hbe]; simp
    rw [hpost _, updStep_case2 q c oldIds newIds newId archive newData a₁ p hb1 hb2]
    rw [if_pos hbe]
    exact uar_add p _ a₁.rewards act v hla hne hlk₁

theorem cond1_iff_newlyOn (s : PF) (m : Node) :
    (((newFrontier s).map Node.id).contains m.id &&
      !((s.frontier_plans.map Node.id).contains m.id)) = true ↔ newlyOn s m := by
  unfold newlyOn
  rw [Bool.and_eq_true, Bool.not_eq_true']
  constructor
  · rintro ⟨ha, hb⟩
    refine ⟨List.elem_iff.mp ha, fun hc => ?_⟩
    rw [contains_true_of_mem hc] at hb
    exact Bool.noConfusion hb
  · rintro ⟨ha, hb⟩
    exact ⟨contains_true_of_mem ha, contains_false_of_not_mem hb⟩

theorem cond1_false_of_not_newlyOn (s : PF) (m : Node) (h : ¬ newlyOn s m) :
    (((newFrontier s).map Node.id).contains m.id &&
      !((s.frontier_plans.map Node.id).contains m.id)) = false :=
  Bool.eq_false_iff.mpr (fun hc => h ((cond1_iff_newlyOn s m).mp hc))

/-- The plans for which `update_pareto_frontier_HV` calls
`_update_action_rewards`: the newly-admitted plans and the just-inserted
plan (matched by id). -/
def credited (s : PF) (n p : Node) : Prop := newlyOn s p ∨ p.id = n.id

/-- C7: in each frontier update the shared action-reward sink is incremented
only for the just-inserted plan and for plans newly admitted to the
frontier, each by that plan's reward, and only when the plan's action
back-reference names a key already present in the sink; every key not
credited this way is left unchanged, the key set of the sink never changes,
and plans that merely fall off or stay off the frontier never change it. -/
theorem action_rewards_frame (s : PF) (n : Node)
    (hnd : (s.plans.map Node.id).Nodup) :
    (∀ act : String,
      (∀ m ∈ s.plans, m.cost ≠ -1 → credited s n m → m.latest_action ≠ some act) →
      lookupA ((updateParetoFrontierHV s n).2).action_rewards act
        = lookupA s.action_rewards act) ∧
    (∀ act : String,
      (lookupA ((updateParetoFrontierHV s n).2).action_rewards act).isSome
        = (lookupA s.action_rewards act).isSome) ∧
    (∀ p ∈ s.plans, p.cost ≠ -1 → ∀ act : String, ∀ v : ℚ,
      p.latest_action = some act → act ≠ "" →
      lookupA s.action_rewards act = some v →
      (∀ m ∈ s.plans, m.cost ≠ -1 → m.id ≠ p.id → credited s n m →
        m.latest_action ≠ some act) →
      (newlyOn s p →
        lookupA ((updateParetoFrontierHV s n).2).action_rewards act
          = some (v + dOld s p)) ∧
      (p.id = n.id → ¬ newlyOn s p →
        lookupA ((updateParetoFrontierHV s n).2).action_rewards act
          = some (v + -(dNew s p)))) := by
  by_cases hval : (validNodes s).isEmpty = true
  · have heq : updateParetoFrontierHV s n =
        (([], false), { s with frontier_plans := [], frontier_data := [] }) := by
      unfold updateParetoFrontierHV
      rw [if_pos hval]
    rw [heq]
    refine ⟨fun act _ => rfl, fun act => rfl, ?_⟩
    intro p hp hpv
    exact (validNodes_nonempty s p hp hpv hval).elim
  · have hnd' : ((validSorted s).map Node.id).Nodup := validSorted_ids_nodup s hnd
    have hresr : ((updateParetoFrontierHV s n).2).action_rewards =
        ((validSorted s).foldl
          (updNodeStep (qOf s) (costOf s) (s.frontier_plans.map Node.id)
            ((newFrontier s).map Node.id) n.id (archiveFrontierData s)
            (newFrontierData s))
          ⟨[], s.node_distances, s.action_rewards⟩).rewards := by
      rw [upd_result s n hval]
    have htrans : ∀ (act : String) (m : Node), m ∈ s.plans → m.cost ≠ -1 →
        (credited s n m → m.latest_action ≠ some act) →
        ((∀ a', m.latest_action = some a' → a' ≠ act) ∨
          ((((newFrontier s).map Node.id).contains m.id &&
            !((s.frontier_plans.map Node.id).contains m.id)) = false ∧
            (m.id == n.id) = false)) := by
      intro act m _ _ hcr
      by_cases hc : credited s n m
      · left
        intro a' hla' heq
        exact hcr hc (by rw [← heq]; exact hla')
      · right
        unfold credited at hc
        push_neg at hc
        exact ⟨cond1_false_of_not_newlyOn s m hc.1, beq_eq_false_iff_ne.mpr hc.2⟩
    refine ⟨?_, ?_, ?_⟩
    · intro act h
      rw [hresr]
      exact updFold_rewards_preserve (qOf s) (costOf s) (s.frontier_plans.map Node.id)
        ((newFrontier s).map Node.id) n.id (archiveFrontierData s) (newFrontierData s)
        (validSorted s) ⟨[], s.node_distances, s.action_rewards⟩ act
        (fun m hm =>
          htrans act m ((mem_validSorted s m).mp hm).1 ((mem_validSorted s m).mp hm).2
            (h m ((mem_validSorted s m).mp hm).1 ((mem_validSorted s m).mp hm).2))
    · intro act
      rw [hresr]
      exact updFold_rewards_isSome (qOf s) (costOf s) (s.frontier_plans.map Node.id)
        ((newFrontier s).map Node.id) n.id (archiveFrontierData s) (newFrontierData s)
        (validSorted s) ⟨[], s.node_distances, s.action_rewards⟩ act
    · intro p hp hpv act v hla hne hlk hothers
      have hpm : p ∈ validSorted s := (mem_validSorted s p).mpr ⟨hp, hpv⟩
      have hadd := updFold_rewards_add (qOf s) (costOf s)
        (s.frontier_plans.map Node.id) ((newFrontier s).map Node.id) n.id
        (archiveFrontierData s) (newFrontierData s) (validSorted s) hnd' p hpm
        ⟨[], s.node_distances, s.action_rewards⟩ act v hla hne hlk
        (fun m hm hmne =>
          htrans act m ((mem_validSorted s m).mp hm).1 ((mem_validSorted s m).mp hm).2
            (fun hc => hothers m ((mem_validSorted s m).mp hm).1
              ((mem_validSorted s m).mp hm).2 hmne hc))
      constructor
      · intro hno
        rw [hresr]
        exact hadd.1 ((cond1_iff_newlyOn s p).mpr hno)
      · intro hid hno
        rw [hresr]
        exact hadd.2 (cond1_false_of_not_newlyOn s p hno) (beq_iff_eq.mpr hid)

instance (s : PF) (n p : Node) : Decidable (credited s n p) := by
  unfold credited; infer_instance

def wNodeD : Node := ⟨3, 30, some "chain"⟩

/-- A reachable engine state with a populated action-reward sink: the
inserted plan D was produced by action "chain", which has key 5 in the
sink. -/
def wState2 : PF :=
  ⟨[wNodeA, wNodeB, wNodeD],
   [(0, AccVal.fin 2), (1, AccVal.fin 1), (3, AccVal.fin 3)],
   [(0, 10), (1, 10), (3, 30)],
   [wNodeA], [(2, 10)], [(1, -1)], [("chain", 5)]⟩

/-- Witness for C7: a newly-on just-inserted plan credits its action key. -/
theorem action_rewards_frame_witness :
    ((wState2.plans.map Node.id).Nodup ∧ wNodeD ∈ wState2.plans ∧
      wNodeD.cost ≠ -1 ∧ wNodeD.latest_action = some "chain" ∧
      ("chain" : String) ≠ "" ∧
      lookupA wState2.action_rewards "chain" = some 5 ∧
      (∀ m ∈ wState2.plans, m.cost ≠ -1 → m.id ≠ wNodeD.id →
        credited wState2 wNodeD m → m.latest_action ≠ some "chain") ∧
      newlyOn wState2 wNodeD) ∧
    lookupA ((updateParetoFrontierHV wState2 wNodeD).2).action_rewards "chain"
      = some (5 + dOld wState2 wNodeD) :=
  ⟨⟨by decide, by decide, by decide, rfl, by decide, by decide, by decide,
    by decide⟩,
   ((action_rewards_frame wState2 wNodeD (by decide)).2.2 wNodeD (by decide)
      (by decide) "chain" 5 rfl (by decide) (by decide) (by decide)).1
     (by decide)⟩

/-! ### Step-function lookup -/

theorem stepScan_cons (cq : ℚ) (q : ℚ × ℚ) (rest : List (ℚ × ℚ)) (acc : ℚ) :
    stepScan cq (q :: rest) acc =
      if q.2 ≤ cq then stepScan cq rest q.1 else acc := rfl

theorem stepScan_spec (cq : ℚ) :
    ∀ (l : List (ℚ × ℚ)) (acc₀ : ℚ), l.Pairwise (fun a b => a.2 ≤ b.2) →
      ((∀ p ∈ l, cq < p.2) → stepScan cq l acc₀ = acc₀) ∧
      ((∃ p ∈ l, p.2 ≤ cq) →
        ∃ p ∈ l, p.2 ≤ cq ∧ (∀ r ∈ l, r.2 ≤ cq → r.2 ≤ p.2) ∧
          stepScan cq l acc₀ = p.1) := by
  intro l
  induction l with
  | nil =>
    intro acc₀ _
    refine ⟨fun _ => rfl, ?_⟩
    rintro ⟨p, hp, _⟩
    exact absurd hp (List.not_mem_nil p)
  | cons q rest ih =>
    intro acc₀ hs
    rw [List.pairwise_cons] at hs
    obtain ⟨hq, hrest⟩ := hs
    constructor
    · intro hall
      rw [stepScan_cons, if_neg (not_le.mpr (hall q (List.mem_cons_self q rest)))]
    · intro hex
      by_cases hle : q.2 ≤ cq
      · rw [stepScan_cons, if_pos hle]
        by_cases hex2 : ∃ p ∈ rest, p.2 ≤ cq
        · obtain ⟨p, hp, hple, hmax, heq⟩ := (ih q.1 hrest).2 hex2
          refine ⟨p, List.mem_cons.mpr (Or.inr hp), hple, ?_, heq⟩
          intro r hr hrle
          rcases List.mem_cons.mp hr with rfl | hr'
          · exact hq p hp
          · exact hmax r hr' hrle
        · push_neg at hex2
          have hstep : stepScan cq rest q.1 = q.1 :=
            (ih q.1 hrest).1 (fun p hp => hex2 p hp)
          refine ⟨q, List.mem_cons_self q rest, hle, ?_, hstep⟩
          intro r hr hrle
          rcases List.mem_cons.mp hr with rfl | hr'
          · exact le_refl _
          · exact absurd hrle (not_le.mpr (hex2 r hr'))
      · exfalso
        obtain ⟨p, hp, hple⟩ := hex
        rcases List.mem_cons.mp hp with rfl | hp'
        · exact hle hple
        · exact hle ((hq p hp').trans hple)

theorem stepValue_sorted (data : List (ℚ × ℚ)) :
    (List.insertionSort (fun a b => a.2 ≤ b.2) data).Pairwise
      (fun a b => a.2 ≤ b.2) := by
  haveI h1 : IsTotal (ℚ × ℚ) (fun a b => a.2 ≤ b.2) := ⟨fun a b => le_total _ _⟩
  haveI h2 : IsTrans (ℚ × ℚ) (fun a b => a.2 ≤ b.2) :=
    ⟨fun a b c hab hbc => le_trans hab hbc⟩
  exact List.sorted_insertionSort _ _

/-- C4: the step-function value at query cost `C` is the accuracy of a
maximal-cost reference point with cost at most `C` (the highest-cost such
point), or `0` when `C` is below every reference cost; on the concrete
frontier `[(0.6, 10), (0.8, 50)]` the values at costs 5, 10, 30, 100 are
`0`, `0.6`, `0.6`, `0.8`; and on an empty reference frontier the projection
returns the plan's raw accuracy as the distance. -/
theorem step_function_lookup :
    (∀ (a cq : ℚ), projectToFrontier a cq [] = a) ∧
    (stepValue [(6/10, 10), (8/10, 50)] 5 = 0 ∧
      stepValue [(6/10, 10), (8/10, 50)] 10 = 6/10 ∧
      stepValue [(6/10, 10), (8/10, 50)] 30 = 6/10 ∧
      stepValue [(6/10, 10), (8/10, 50)] 100 = 8/10) ∧
    (∀ (data : List (ℚ × ℚ)) (cq : ℚ),
      ((∀ p ∈ data, cq < p.2) → stepValue data cq = 0) ∧
      ((∃ p ∈ data, p.2 ≤ cq) →
        ∃ p ∈ data, p.2 ≤ cq ∧ (∀ r ∈ data, r.2 ≤ cq → r.2 ≤ p.2) ∧
          stepValue data cq = p.1)) := by
  refine ⟨?_, ?_, ?_⟩
  · intro a cq
    unfold projectToFrontier
    simp
  · refine ⟨?_, ?_, ?_, ?_⟩ <;>
      norm_num [stepValue, stepScan, List.insertionSort, List.orderedInsert]
  · intro data cq
    have hperm : (List.insertionSort (fun a b => a.2 ≤ b.2) data).Perm data :=
      List.perm_insertionSort _ _
    have hspec := stepScan_spec cq (List.insertionSort (fun a b => a.2 ≤ b.2) data) 0
      (stepValue_sorted data)
    constructor
    · intro hall
      exact hspec.1 (fun p hp => hall p (hperm.mem_iff.mp hp))
    · intro hex
      obtain ⟨p, hp, hple⟩ := hex
      obtain ⟨r, hr, hrle, hrmax, hreq⟩ :=
        hspec.2 ⟨p, hperm.mem_iff.mpr hp, hple⟩
      exact ⟨r, hperm.mem_iff.mp hr, hrle,
        fun w hw hwle => hrmax w (hperm.mem_iff.mpr hw) hwle, hreq⟩

/-- Witness for C4 at the concrete frontier and query cost 30. -/
theorem step_function_lookup_witness :
    ∃ p ∈ [((6:ℚ)/10, (10:ℚ)), (8/10, 50)], p.2 ≤ 30 ∧
      (∀ r ∈ [((6:ℚ)/10, (10:ℚ)), (8/10, 50)], r.2 ≤ 30 → r.2 ≤ p.2) ∧
      stepValue [((6:ℚ)/10, (10:ℚ)), (8/10, 50)] 30 = p.1 :=
  (step_function_lookup.2.2 [((6:ℚ)/10, (10:ℚ)), (8/10, 50)] 30).2
    ⟨((6:ℚ)/10, (10:ℚ)), by norm_num, by norm_num⟩

/-! ### Accuracy estimator -/

/-- C8: the accuracy estimate always lies in [0.10, 0.95]; it is exactly 0.5
when there are no frontier members to compare against or when every pairwise
comparison failed; otherwise it is the arithmetic mean of the successful
per-member candidate estimates (the member's known accuracy plus the
adjustment -0.15, -0.05, 0, +0.05, +0.15 for comparator scores -3, -1, 0, 1,
3) clamped to [0.10, 0.95], with individual comparator failures skipped. -/
theorem estimate_accuracy_spec (s : PF) (cmp : Node → Node → Option Int)
    (new_node : Node) :
    (1/10 ≤ estimateAccuracy s cmp new_node ∧
      estimateAccuracy s cmp new_node ≤ 95/100) ∧
    (s.frontier_plans = [] → estimateAccuracy s cmp new_node = 1/2) ∧
    (successfulEstimates s cmp new_node = [] →
      estimateAccuracy s cmp new_node = 1/2) ∧
    (s.frontier_plans ≠ [] → successfulEstimates s cmp new_node ≠ [] →
      estimateAccuracy s cmp new_node =
        max (1/10) (min (95/100)
          ((successfulEstimates s cmp new_node).sum /
            ((successfulEstimates s cmp new_node).length : ℚ)))) ∧
    (scoreToAdjustment (-3) = -(15/100) ∧ scoreToAdjustment (-1) = -(5/100) ∧
      scoreToAdjustment 0 = 0 ∧ scoreToAdjustment 1 = 5/100 ∧
      scoreToAdjustment 3 = 15/100) := by
  refine ⟨?_, ?_, ?_, ?_, ?_⟩
  · unfold estimateAccuracy
    by_cases hf : s.frontier_plans.isEmpty = true
    · rw [if_pos hf]
      norm_num
    · rw [if_neg hf]
      by_cases he : (successfulEstimates s cmp new_node).isEmpty = true
      · rw [if_pos he]
        norm_num
      · rw [if_neg he]
        exact ⟨le_max_left _ _, max_le (by norm_num) (min_le_left _ _)⟩
  · intro hf
    unfold estimateAccuracy
    rw [if_pos (List.isEmpty_iff.mpr hf)]
  · intro he
    unfold estimateAccuracy
    by_cases hf : s.frontier_plans.isEmpty = true
    · rw [if_pos hf]
    · rw [if_neg hf, if_pos (List.isEmpty_iff.mpr he)]
  · intro hf he
    unfold estimateAccuracy
    rw [if_neg (fun hc => hf (List.isEmpty_iff.mp hc)),
      if_neg (fun hc => he (List.isEmpty_iff.mp hc))]
  · norm_num [scoreToAdjustment]

/-- Witness for C8: on an empty frontier the estimate is the 0.5 baseline. -/
theorem estimate_accuracy_spec_witness :
    pfEmpty.frontier_plans = [] ∧
      estimateAccuracy pfEmpty (fun _ _ => none) wNodeA = 1/2 :=
  ⟨rfl, (estimate_accuracy_spec pfEmpty (fun _ _ => none) wNodeA).2.1 rfl⟩

/-! ### UCB1 -/

/-- C9 (amended): the UCB1 score of a node with zero visits is positive
infinity, and for visits ≥ 1 and parent_visits ≥ 1 it equals
`value / visits + sqrt 2 * sqrt (log parent_visits / visits)` with the
default exploration constant `sqrt 2`.  (The claim's original "every
parent_visits" fails at `parent_visits = 0`, where `math.log(0)` raises —
see the counterexample.) -/
theorem ucb1_formula (node : MCTSNode) (parent_visits : ℕ)
    (hp : 1 ≤ parent_visits) :
    (node.visits = 0 → calculateUcb1Default node parent_visits = Except.ok ⊤) ∧
    (1 ≤ node.visits → calculateUcb1Default node parent_visits =
      Except.ok (((node.value / node.visits +
        Real.sqrt 2 * Real.sqrt (Real.log parent_visits / node.visits) : ℝ) :
          EReal))) := by
  constructor
  · intro h0
    unfold calculateUcb1Default calculateUcb1
    rw [if_pos h0]
  · intro h1
    unfold calculateUcb1Default calculateUcb1
    rw [if_neg (by omega), if_neg (by omega)]

/-- Witness for C9's amended theorem at a node with one visit and one parent
visit. -/
theorem ucb1_formula_witness :
    1 ≤ 1 ∧
    (((⟨1, 0⟩ : MCTSNode).visits = 0 →
        calculateUcb1Default ⟨1, 0⟩ 1 = Except.ok ⊤) ∧
      (1 ≤ (⟨1, 0⟩ : MCTSNode).visits →
        calculateUcb1Default ⟨1, 0⟩ 1 = Except.ok
          ((((⟨1, 0⟩ : MCTSNode).value / (⟨1, 0⟩ : MCTSNode).visits +
            Real.sqrt 2 * Real.sqrt
              (Real.log ((1 : ℕ) : ℝ) / (⟨1, 0⟩ : MCTSNode).visits) : ℝ) :
              EReal)))) :=
  ⟨by norm_num, ucb1_formula ⟨1, 0⟩ 1 (by norm_num)⟩

/-- C9 counterexample: at visits = 1 and parent_visits = 0 the code reaches
`math.log(0)`, which raises `ValueError: math domain error`, so no score of
any form is returned — refuting the claimed formula "for every
parent_visits". -/
theorem ucb1_parent_zero_cex :
    calculateUcb1Default ⟨1, 0⟩ 0 = Except.error "math domain error" ∧
    (calculateUcb1Default ⟨1, 0⟩ 0).toOption = none := by
  have h : calculateUcb1Default ⟨1, 0⟩ 0 = Except.error "math domain error" := by
    unfold calculateUcb1Default calculateUcb1
    norm_num
  exact ⟨h, by rw [h]; rfl⟩

/-- C10: with visits ≥ 1 the UCB1 computation is well defined exactly under
the precondition parent_visits ≥ 1 — the logarithm argument is then positive
and the divisor nonzero, and the score is the finite real
`value / visits + C * sqrt (log parent_visits / visits)` — whereas a call
with parent_visits = 0 reaches `math.log(0)` and fails with a domain error
rather than returning a score. -/
theorem ucb1_totality (node : MCTSNode) (parent_visits : ℕ) (C : ℝ)
    (hv : 1 ≤ node.visits) :
    (1 ≤ parent_visits → ∃ r : ℝ,
      calculateUcb1 node parent_visits C = Except.ok ((r : EReal)) ∧
        r = node.value / node.visits +
          C * Real.sqrt (Real.log parent_visits / node.visits)) ∧
    (parent_visits = 0 → calculateUcb1 node parent_visits C =
      Except.error "math domain error") := by
  constructor
  · intro hp
    refine ⟨_, ?_, rfl⟩
    unfold calculateUcb1
    rw [if_neg (by omega), if_neg (by omega)]
  · intro hp
    unfold calculateUcb1
    rw [if_neg (by omega), if_pos hp]

/-- Witness for C10 at a node with one visit and zero parent visits. -/
theorem ucb1_totality_witness :
    1 ≤ (⟨1, 0⟩ : MCTSNode).visits ∧
    ((1 ≤ 0 → ∃ r : ℝ,
        calculateUcb1 ⟨1, 0⟩ 0 0 = Except.ok ((r : EReal)) ∧
          r = (⟨1, 0⟩ : MCTSNode).value / (⟨1, 0⟩ : MCTSNode).visits +
            0 * Real.sqrt (Real.log ((0 : ℕ) : ℝ) / (⟨1, 0⟩ : MCTSNode).visits)) ∧
      (0 = 0 → calculateUcb1 ⟨1, 0⟩ 0 0 = Except.error "math domain error")) :=
  ⟨le_refl 1, ucb1_totality ⟨1, 0⟩ 0 0 (le_refl 1)⟩

end ReasoningOptimizer
